import Mathlib

/-!
# sitemap-extract: recursive sitemap resolution

A shallow embedding of `main.go`: the `SitemapExtractor` with its URL map, the fetch step
`downloadSitemap`, the recursive `parseSitemap` and the entry point `ExtractURLs`.

What lies outside the repository is taken as data of a `Corpus`: the HTTP transport
(`http.NewRequest`, `client.Do`), `gzip.NewReader` and the XML tokenizer of `encoding/xml`.
The struct-directed part of `xml.Unmarshal` (the `XMLName` check on the root element and the
selection of child elements by the field tags of `SitemapIndex`, `Sitemap`, `URLSet`, `URL`)
is written out, because it is fixed by the declarations of `main.go`.

`parseSitemap` recurses with no bound of its own, so the embedding carries a recursion budget
(the depth of the call stack): `none` means that the budget was exceeded.
-/

namespace SitemapExtract

set_option maxRecDepth 100000

/-! ## Library data -/

/-- A Go `[]byte`. -/
abbrev Bytes := List UInt8

/-- The bytes of a string (`[]byte(s)`). -/
def bytesOf (s : String) : Bytes := s.toUTF8.data.toList

/-- Go `strings.HasSuffix(s, suffix)`:
`len(s) >= len(suffix) && s[len(s)-len(suffix):] == suffix`. -/
def HasSuffix (s suffix : String) : Bool :=
  decide (suffix.length ≤ s.length) &&
    decide (s.toList.drop (s.length - suffix.length) = suffix.toList)

/-- An `io.Reader`: the bytes it delivers, and whether it ends in a read error rather
than in a clean end of file. -/
structure Stream where
  data : Bytes
  fails : Bool

/-- The errors `downloadSitemap` and `parseSitemap` return (the `%v` details are dropped). -/
inductive Error where
  /-- "error creating request: %v" -/
  | creatingRequest
  /-- "error downloading sitemap: %v" -/
  | downloading
  /-- "received non-200 status code: %d" -/
  | non200 (code : Nat)
  /-- "error creating gzip reader: %v" -/
  | gzipReader
  /-- The error of `io.ReadAll`, returned as it is. -/
  | read
  /-- "error parsing sitemap XML: %v" -/
  | parsingXML
  deriving DecidableEq, Repr

/-- Equality of the outcomes `([]byte, error)` of a fetch is decidable. -/
instance decEqFetch : DecidableEq (Except Error Bytes) := fun a b =>
  match a, b with
  | .ok x, .ok y =>
    if h : x = y then isTrue (congrArg Except.ok h)
    else isFalse (fun h2 => h (Except.ok.inj h2))
  | .error x, .error y =>
    if h : x = y then isTrue (congrArg Except.error h)
    else isFalse (fun h2 => h (Except.error.inj h2))
  | .ok _, .error _ => isFalse (fun h2 => Except.noConfusion h2)
  | .error _, .ok _ => isFalse (fun h2 => Except.noConfusion h2)

/-- Go `io.ReadAll(reader)`, as its caller uses it (the bytes are dropped on an error). -/
def ReadAll (r : Stream) : Except Error Bytes :=
  if r.fails then .error .read else .ok r.data

/-- An `*http.Response`, as far as `downloadSitemap` looks at it. -/
structure Response where
  StatusCode : Nat
  /-- The value of `resp.Header.Get("Content-Type")`. -/
  contentType : String
  Body : Stream

/-- A node inside an XML element: character data, or a child element with its local name. -/
inductive Node where
  | charData (text : String)
  | element (name : String) (children : List Node)

/-- The root element of a document, as the tokenizer of `encoding/xml` delivers it. -/
structure Document where
  name : String
  children : List Node

/-- The external collaborators of the program. -/
structure Corpus where
  /-- Whether `http.NewRequest("GET", url, nil)` succeeds. -/
  NewRequest : String → Bool
  /-- The outcome of `client.Do(req)` for the request to a URL; `none` is an error. -/
  Do : String → Option Response
  /-- The outcome of `gzip.NewReader`; `none` is an error. -/
  gzipNewReader : Stream → Option Stream
  /-- The tokenizer of `encoding/xml`, up to the end of the root element; `none` is a
  syntax error or a document without a root element. -/
  decodeXML : Bytes → Option Document

/-! ## The types of `main.go` -/

/-- The struct `URL` (its `Loc` carries the tag `xml:"loc"`). -/
structure URL where
  Loc : String
  deriving DecidableEq, Repr

/-- The struct `URLSet` (`XMLName` tagged `xml:"urlset"`, `URLs` tagged `xml:"url"`). -/
structure URLSet where
  URLs : List URL
  deriving DecidableEq, Repr

/-- The struct `Sitemap` (its `Loc` carries the tag `xml:"loc"`). -/
structure Sitemap where
  Loc : String
  deriving DecidableEq, Repr

/-- The struct `SitemapIndex` (`XMLName` tagged `xml:"sitemapindex"`, `Sitemaps` tagged
`xml:"sitemap"`). -/
structure SitemapIndex where
  Sitemaps : List Sitemap
  deriving DecidableEq, Repr

/-- A Go `map[string]bool` in which every stored value is `true` (the program stores no
other value): its keys, in the order a `range` visits them. A key occurs once. -/
structure StringSet where
  keys : List String
  nodup : keys.Nodup
  deriving DecidableEq

/-- The statement `m[k] = true`. -/
def StringSet.insert (m : StringSet) (k : String) : StringSet :=
  if h : k ∈ m.keys then m
  else ⟨m.keys ++ [k], List.Nodup.append m.nodup (List.nodup_singleton k)
    (fun a ha hk => h (by rw [List.mem_singleton] at hk; exact hk ▸ ha))⟩

/-- Go `make(map[string]bool)`. -/
def StringSet.empty : StringSet := ⟨[], List.nodup_nil⟩

/-- The struct `SitemapExtractor`. -/
structure SitemapExtractor where
  urls : StringSet
  deriving DecidableEq

/-- The lines written with `log.Printf`. -/
inductive LogEntry where
  /-- "Processing sitemap index: %s" -/
  | processingIndex (url : String)
  /-- "Error processing nested sitemap %s: %v" -/
  | nestedError (loc : String) (err : Error)
  /-- "Processing sitemap: %s" -/
  | processingSitemap (url : String)
  /-- "Error extracting URLs: %v" -/
  | extractError (err : Error)
  deriving DecidableEq, Repr

/-- The mutable state a call works on: the extractor and the log written so far. -/
structure ProgState where
  se : SitemapExtractor
  log : List LogEntry
  deriving DecidableEq

/-- Append a line to the log. -/
def ProgState.printf (w : ProgState) (e : LogEntry) : ProgState :=
  ⟨w.se, w.log ++ [e]⟩

/-- Go `NewSitemapExtractor()`. -/
def NewSitemapExtractor : SitemapExtractor := ⟨StringSet.empty⟩

/-- The state of a program that has just created its extractor. -/
def ProgState.init : ProgState := ⟨NewSitemapExtractor, []⟩

/-! ## `xml.Unmarshal` into the structs of `main.go` -/

/-- The character data directly inside an element (what a `string` field receives). -/
def charDataOf (children : List Node) : String :=
  String.join (children.filterMap fun n =>
    match n with
    | .charData t => some t
    | .element _ _ => none)

/-- The value of a field `Loc string` tagged `xml:"loc"` after the children of a `<url>` or
`<sitemap>` element were processed: each `<loc>` child overwrites it, without one it stays
empty. -/
def unmarshalLoc (children : List Node) : String :=
  children.foldl (fun acc n =>
    match n with
    | .charData _ => acc
    | .element name cs => if name = "loc" then charDataOf cs else acc) ""

/-- The slice field tagged `xml:"<tag>"`: one entry for each child element of that name, in
document order; other children are skipped. -/
def unmarshalEntries (tag : String) (children : List Node) : List String :=
  children.filterMap fun n =>
    match n with
    | .charData _ => none
    | .element name cs => if name = tag then some (unmarshalLoc cs) else none

/-- Go `xml.Unmarshal(content, &sitemapIndex)`; `none` when it returns an error. -/
def unmarshalSitemapIndex (c : Corpus) (content : Bytes) : Option SitemapIndex :=
  match c.decodeXML content with
  | none => none
  | some doc =>
    if doc.name = "sitemapindex" then
      some ⟨(unmarshalEntries "sitemap" doc.children).map Sitemap.mk⟩
    else none

/-- Go `xml.Unmarshal(content, &urlset)`; `none` when it returns an error. -/
def unmarshalURLSet (c : Corpus) (content : Bytes) : Option URLSet :=
  match c.decodeXML content with
  | none => none
  | some doc =>
    if doc.name = "urlset" then
      some ⟨(unmarshalEntries "url" doc.children).map URL.mk⟩
    else none

/-! ## The functions of `main.go` -/

/-- Go `(*SitemapExtractor).downloadSitemap`. -/
def downloadSitemap (c : Corpus) (url : String) : Except Error Bytes :=
  if c.NewRequest url = false then .error .creatingRequest
  else
    match c.Do url with
    | none => .error .downloading
    | some resp =>
      if resp.StatusCode ≠ 200 then .error (.non200 resp.StatusCode)
      else if HasSuffix url ".gz" || decide (resp.contentType = "application/x-gzip") then
        match c.gzipNewReader resp.Body with
        | none => .error .gzipReader
        | some gzReader => ReadAll gzReader
      else ReadAll resp.Body

/-- The loop `for _, url := range urlset.URLs { se.urls[url.Loc] = true }`. -/
def insertURLs (urls : List URL) (m : StringSet) : StringSet :=
  urls.foldl (fun acc u => acc.insert u.Loc) m

/-- Lines 95 to 105 of `parseSitemap`: the URL-set part. -/
def parseURLSet (c : Corpus) (url : String) (content : Bytes) (w : ProgState) :
    ProgState × Option Error :=
  match unmarshalURLSet c content with
  | none => (w, some .parsingXML)
  | some urlset =>
    (⟨⟨insertURLs urlset.URLs w.se.urls⟩, w.log ++ [.processingSitemap url]⟩, none)

/-- The loop over `sitemapIndex.Sitemaps` in `parseSitemap`; `call` is the recursive call.
An error of a child is logged and the loop goes on. -/
def rangeSitemaps (call : String → ProgState → Option (ProgState × Option Error)) :
    List Sitemap → ProgState → Option ProgState
  | [], w => some w
  | sitemap :: rest, w =>
    match call sitemap.Loc w with
    | none => none
    | some (w1, none) => rangeSitemaps call rest w1
    | some (w1, some err) => rangeSitemaps call rest (w1.printf (.nestedError sitemap.Loc err))

/-- Go `(*SitemapExtractor).parseSitemap`, with a budget for the depth of the recursion.
The result is the state after the call and the returned error (`none` for `nil`). -/
def parseSitemap (c : Corpus) : Nat → String → ProgState → Option (ProgState × Option Error)
  | 0, _, _ => none
  | depth + 1, url, w =>
    match downloadSitemap c url with
    | .error err => some (w, some err)
    | .ok content =>
      match unmarshalSitemapIndex c content with
      | some sitemapIndex =>
        if sitemapIndex.Sitemaps.length > 0 then
          (rangeSitemaps (parseSitemap c depth) sitemapIndex.Sitemaps
            (w.printf (.processingIndex url))).map fun w1 => (w1, none)
        else some (parseURLSet c url content w)
      | none => some (parseURLSet c url content w)

/-- Go `sort.Strings`: the ascending rearrangement of a slice (byte-wise lexicographic order,
which on valid UTF-8 is the order of the code points). -/
def sortStrings (l : List String) : List String :=
  l.insertionSort (fun a b => a.toList ≤ b.toList)

/-- Go `(*SitemapExtractor).ExtractURLs`. -/
def ExtractURLs (c : Corpus) (depth : Nat) (sitemapURL : String) (w : ProgState) :
    Option (ProgState × List String) :=
  match parseSitemap c depth sitemapURL w with
  | none => none
  | some (w1, none) => some (w1, sortStrings w1.se.urls.keys)
  | some (w1, some err) =>
    some (w1.printf (.extractError err), sortStrings w1.se.urls.keys)

/-! ## Auxiliary notions for the statements -/

/-- Insert the keys of a list, in order. -/
def StringSet.insertAll (ks : List String) (m : StringSet) : StringSet :=
  ks.foldl StringSet.insert m

/-- The state after some keys were inserted and some lines were logged. -/
def ProgState.extend (w : ProgState) (ks : List String) (lg : List LogEntry) : ProgState :=
  ⟨⟨w.se.urls.insertAll ks⟩, w.log ++ lg⟩

/-- The location `L` fetches to a document that `parseSitemap` handles as a URL set (it is
no sitemap index with an entry, and it unmarshals as a `URLSet`) whose entries are `locs`. -/
def HandledAsURLSet (c : Corpus) (L : String) (locs : List String) : Prop :=
  ∃ content urlset, downloadSitemap c L = .ok content ∧
    (∀ idx, unmarshalSitemapIndex c content = some idx → idx.Sitemaps = []) ∧
    unmarshalURLSet c content = some urlset ∧ locs = urlset.URLs.map URL.Loc

/-- The location `L` fetches to a document that `parseSitemap` handles as a sitemap index
(it unmarshals as a `SitemapIndex` with at least one entry) listing the location `C`. -/
def ListsChild (c : Corpus) (L C : String) : Prop :=
  ∃ content idx, downloadSitemap c L = .ok content ∧
    unmarshalSitemapIndex c content = some idx ∧ 0 < idx.Sitemaps.length ∧
    C ∈ idx.Sitemaps.map Sitemap.Loc

/-- What a call does, whatever the state it starts from: it exceeds the budget, or it
inserts fixed keys and logs fixed lines; a call that returns an error has done nothing,
and every inserted key is an entry of a URL set whose processing was logged. -/
def Effect (c : Corpus) (call : String → ProgState → Option (ProgState × Option Error))
    (url : String) : Prop :=
  (∀ w, call url w = none) ∨
  ∃ ks lg e, (∀ w, call url w = some (w.extend ks lg, e)) ∧
    (e ≠ none → ks = [] ∧ lg = []) ∧
    ∀ k ∈ ks, ∃ L locs, LogEntry.processingSitemap L ∈ lg ∧ HandledAsURLSet c L locs ∧ k ∈ locs

/-! ## Example corpora -/

/-- The text `<tag><loc>l</loc></tag>` for each location of a list. -/
def xmlEntries (tag : String) (locs : List String) : String :=
  String.join (locs.map fun l => "<" ++ tag ++ "><loc>" ++ l ++ "</loc></" ++ tag ++ ">")

/-- The text of a URL set with the given locations. -/
def urlsetXML (locs : List String) : String :=
  "<urlset>" ++ xmlEntries "url" locs ++ "</urlset>"

/-- The text of a sitemap index with the given locations. -/
def sitemapindexXML (locs : List String) : String :=
  "<sitemapindex>" ++ xmlEntries "sitemap" locs ++ "</sitemapindex>"

/-- The element `<tag><loc>l</loc></tag>`. -/
def entry (tag l : String) : Node :=
  .element tag [.element "loc" [.charData l]]

/-- The root element of `urlsetXML locs`. -/
def urlsetDoc (locs : List String) : Document :=
  ⟨"urlset", locs.map (entry "url")⟩

/-- The root element of `sitemapindexXML locs`. -/
def sitemapindexDoc (locs : List String) : Document :=
  ⟨"sitemapindex", locs.map (entry "sitemap")⟩

/-- A tokenizer that knows the documents of a table; other bytes are a syntax error. -/
def decodeTable (docs : List (String × Document)) : Bytes → Option Document :=
  fun b => (docs.find? fun d => decide (bytesOf d.1 = b)).map Prod.snd

/-- A response with status 200 and the given text as its body. -/
def ok200 (body : String) : Response :=
  ⟨200, "application/xml", ⟨bytesOf body, false⟩⟩

/-- A corpus given by a table of responses and a table of documents, without gzip. -/
def tableCorpus (pages : List (String × Response)) (docs : List (String × Document)) :
    Corpus where
  NewRequest := fun _ => true
  Do := fun url => pages.lookup url
  gzipNewReader := fun _ => none
  decodeXML := decodeTable docs

/-- One URL set that lists the location `http://x/2` twice. -/
def dupCorpus : Corpus :=
  tableCorpus
    [("http://x/sitemap.xml", ok200 (urlsetXML ["http://x/2", "http://x/1", "http://x/2"]))]
    [(urlsetXML ["http://x/2", "http://x/1", "http://x/2"],
      urlsetDoc ["http://x/2", "http://x/1", "http://x/2"])]

/-- The end-to-end example: a root index with two URL sets that share `http://x/2`. -/
def exampleCorpus : Corpus :=
  tableCorpus
    [("http://x/sitemap.xml", ok200 (sitemapindexXML ["http://x/a.xml", "http://x/b.xml"])),
     ("http://x/a.xml", ok200 (urlsetXML ["http://x/1", "http://x/2"])),
     ("http://x/b.xml", ok200 (urlsetXML ["http://x/2", "http://x/3"]))]
    [(sitemapindexXML ["http://x/a.xml", "http://x/b.xml"],
      sitemapindexDoc ["http://x/a.xml", "http://x/b.xml"]),
     (urlsetXML ["http://x/1", "http://x/2"], urlsetDoc ["http://x/1", "http://x/2"]),
     (urlsetXML ["http://x/2", "http://x/3"], urlsetDoc ["http://x/2", "http://x/3"])]

/-- A root index with three children; the second answers with status 404. -/
def partialCorpus : Corpus :=
  tableCorpus
    [("http://x/sitemap.xml",
        ok200 (sitemapindexXML ["http://x/a.xml", "http://x/b.xml", "http://x/c.xml"])),
     ("http://x/a.xml", ok200 (urlsetXML ["http://x/3", "http://x/1"])),
     ("http://x/b.xml", ⟨404, "text/html", ⟨bytesOf "not found", false⟩⟩),
     ("http://x/c.xml", ok200 (urlsetXML ["http://x/2"]))]
    [(sitemapindexXML ["http://x/a.xml", "http://x/b.xml", "http://x/c.xml"],
      sitemapindexDoc ["http://x/a.xml", "http://x/b.xml", "http://x/c.xml"]),
     (urlsetXML ["http://x/3", "http://x/1"], urlsetDoc ["http://x/3", "http://x/1"]),
     (urlsetXML ["http://x/2"], urlsetDoc ["http://x/2"])]

/-- A root that is the document `<sitemapindex></sitemapindex>`. -/
def emptyIndexCorpus : Corpus :=
  tableCorpus
    [("http://x/sitemap.xml", ok200 "<sitemapindex></sitemapindex>")]
    [("<sitemapindex></sitemapindex>", ⟨"sitemapindex", []⟩)]

/-- Two sitemap indexes that list each other. -/
def cycleCorpus : Corpus :=
  tableCorpus
    [("http://x/a.xml", ok200 (sitemapindexXML ["http://x/b.xml"])),
     ("http://x/b.xml", ok200 (sitemapindexXML ["http://x/a.xml"]))]
    [(sitemapindexXML ["http://x/b.xml"], sitemapindexDoc ["http://x/b.xml"]),
     (sitemapindexXML ["http://x/a.xml"], sitemapindexDoc ["http://x/a.xml"])]

/-- A root index that lists a child answering 404 and then an index that lists the root. -/
def loopCorpus : Corpus :=
  tableCorpus
    [("http://x/sitemap.xml", ok200 (sitemapindexXML ["http://x/b.xml", "http://x/a.xml"])),
     ("http://x/b.xml", ⟨404, "text/html", ⟨bytesOf "not found", false⟩⟩),
     ("http://x/a.xml", ok200 (sitemapindexXML ["http://x/sitemap.xml"]))]
    [(sitemapindexXML ["http://x/b.xml", "http://x/a.xml"],
      sitemapindexDoc ["http://x/b.xml", "http://x/a.xml"]),
     (sitemapindexXML ["http://x/sitemap.xml"], sitemapindexDoc ["http://x/sitemap.xml"])]

/-- The first bytes of a gzip stream, standing for a compressed URL set. -/
def gzipBytes : Bytes := [0x1f, 0x8b, 0x08, 0x00]

/-- Three locations that serve the same compressed URL set: one whose URL ends in `.gz`,
one declared `application/x-gzip`, and one declared `application/gzip` (the type that the
`Accept` header of `downloadSitemap` asks for). -/
def gzipCorpus : Corpus where
  NewRequest := fun _ => true
  Do := fun url => [("http://x/sitemap.xml.gz", ⟨200, "application/octet-stream", ⟨gzipBytes, false⟩⟩),
      ("http://x/sitemap-x", ⟨200, "application/x-gzip", ⟨gzipBytes, false⟩⟩),
      ("http://x/sitemap", ⟨200, "application/gzip", ⟨gzipBytes, false⟩⟩)].lookup url
  gzipNewReader := fun r =>
    if r.data = gzipBytes then some ⟨bytesOf (urlsetXML ["http://x/1"]), false⟩ else none
  decodeXML := decodeTable [(urlsetXML ["http://x/1"], urlsetDoc ["http://x/1"])]

/-! ## Lemmas on the map and on sorting -/

theorem StringSet.mem_insert (m : StringSet) (k u : String) :
    u ∈ (m.insert k).keys ↔ u ∈ m.keys ∨ u = k := by
  unfold StringSet.insert
  split
  · constructor
    · exact Or.inl
    · rintro (h | h)
      · exact h
      · subst h; assumption
  · simp

theorem StringSet.mem_insertAll (ks : List String) (m : StringSet) (u : String) :
    u ∈ (m.insertAll ks).keys ↔ u ∈ m.keys ∨ u ∈ ks := by
  induction ks generalizing m with
  | nil => simp [StringSet.insertAll]
  | cons k ks ih =>
    have h := ih (m.insert k)
    simp only [StringSet.insertAll, List.foldl_cons] at h ⊢
    rw [h, StringSet.mem_insert]
    simp only [List.mem_cons]
    tauto

theorem StringSet.insertAll_append (ks ks2 : List String) (m : StringSet) :
    m.insertAll (ks ++ ks2) = (m.insertAll ks).insertAll ks2 := by
  simp [StringSet.insertAll, List.foldl_append]

theorem insertURLs_eq (urls : List URL) (m : StringSet) :
    insertURLs urls m = m.insertAll (urls.map URL.Loc) := by
  simp [insertURLs, StringSet.insertAll, List.foldl_map]

theorem ProgState.extend_nil (w : ProgState) : w.extend [] [] = w := by
  cases w
  simp [ProgState.extend, StringSet.insertAll]

theorem ProgState.extend_extend (w : ProgState) (ks ks2 : List String)
    (lg lg2 : List LogEntry) :
    (w.extend ks lg).extend ks2 lg2 = w.extend (ks ++ ks2) (lg ++ lg2) := by
  simp [ProgState.extend, StringSet.insertAll_append]

theorem ProgState.printf_eq (w : ProgState) (e : LogEntry) : w.printf e = w.extend [] [e] := by
  simp [ProgState.printf, ProgState.extend, StringSet.insertAll]

theorem ProgState.mem_extend (w : ProgState) (ks : List String) (lg : List LogEntry)
    (u : String) : u ∈ (w.extend ks lg).se.urls.keys ↔ u ∈ w.se.urls.keys ∨ u ∈ ks := by
  simp [ProgState.extend, StringSet.mem_insertAll]

theorem ProgState.mem_init_extend (ks : List String) (lg : List LogEntry) (u : String) :
    u ∈ (ProgState.init.extend ks lg).se.urls.keys ↔ u ∈ ks := by
  rw [ProgState.mem_extend]
  simp [ProgState.init, NewSitemapExtractor, StringSet.empty]

theorem sortLE_total : IsTotal String (fun a b => a.toList ≤ b.toList) :=
  ⟨fun a b => le_total a.toList b.toList⟩

theorem sortLE_trans : IsTrans String (fun a b => a.toList ≤ b.toList) :=
  ⟨fun _ _ _ h1 h2 => le_trans h1 h2⟩

theorem sortLE_antisymm : IsAntisymm String (fun a b => a.toList ≤ b.toList) :=
  ⟨fun _ _ h1 h2 => String.ext (le_antisymm h1 h2)⟩

theorem sortStrings_perm (l : List String) : (sortStrings l).Perm l :=
  List.perm_insertionSort _ l

theorem mem_sortStrings (l : List String) (u : String) : u ∈ sortStrings l ↔ u ∈ l :=
  (sortStrings_perm l).mem_iff

theorem sortStrings_nodup {l : List String} (h : l.Nodup) : (sortStrings l).Nodup :=
  (sortStrings_perm l).nodup_iff.mpr h

theorem sortStrings_sorted_le (l : List String) :
    List.Sorted (fun a b : String => a.toList ≤ b.toList) (sortStrings l) :=
  haveI := sortLE_total
  haveI := sortLE_trans
  List.sorted_insertionSort _ l

/-- On a slice without a repeated string, the outcome of `sort.Strings` is strictly
ascending in the order of `String`. -/
theorem sortStrings_sorted_lt {l : List String} (h : l.Nodup) :
    List.Sorted (fun a b : String => a < b) (sortStrings l) := by
  have hs := sortStrings_sorted_le l
  have hn := sortStrings_nodup h
  unfold List.Sorted at hs ⊢
  rw [List.pairwise_iff_get] at hs ⊢
  intro i j hij
  have hle := hs i j hij
  rw [String.lt_iff_toList_lt]
  refine lt_of_le_of_ne hle ?_
  intro heq
  have : (sortStrings l).get i = (sortStrings l).get j := String.ext heq
  have := (List.Nodup.get_inj_iff hn).mp this
  exact absurd this (ne_of_lt hij)

/-- The outcome of `sort.Strings` depends on the strings in the slice only, not on their
order: two maps with the same keys give the same list. -/
theorem sortStrings_congr {l l2 : List String} (h : l.Nodup) (h2 : l2.Nodup)
    (hm : ∀ u, u ∈ l ↔ u ∈ l2) : sortStrings l = sortStrings l2 := by
  have hp : l.Perm l2 := (List.perm_ext_iff_of_nodup h h2).mpr hm
  haveI := sortLE_antisymm
  exact List.eq_of_perm_of_sorted
    (((sortStrings_perm l).trans hp).trans (sortStrings_perm l2).symm)
    (sortStrings_sorted_le l) (sortStrings_sorted_le l2)

/-! ## The effect of a call -/

theorem parseURLSet_effect (c : Corpus) (url : String) (content : Bytes)
    (hd : downloadSitemap c url = .ok content)
    (hi : ∀ idx, unmarshalSitemapIndex c content = some idx → idx.Sitemaps = []) :
    ∃ ks lg e, (∀ w, parseURLSet c url content w = (w.extend ks lg, e)) ∧
      (e ≠ none → ks = [] ∧ lg = []) ∧
      ∀ k ∈ ks, ∃ L locs, LogEntry.processingSitemap L ∈ lg ∧ HandledAsURLSet c L locs ∧
        k ∈ locs := by
  cases hu : unmarshalURLSet c content with
  | none =>
    refine ⟨[], [], some .parsingXML, ?_, ?_, ?_⟩
    · intro w
      simp [parseURLSet, hu, ProgState.extend_nil]
    · intro _
      exact ⟨rfl, rfl⟩
    · intro k hk
      cases hk
  | some urlset =>
    refine ⟨urlset.URLs.map URL.Loc, [.processingSitemap url], none, ?_, ?_, ?_⟩
    · intro w
      simp [parseURLSet, hu, ProgState.extend, insertURLs_eq]
    · intro h
      exact absurd rfl h
    · intro k hk
      exact ⟨url, urlset.URLs.map URL.Loc, List.mem_singleton.mpr rfl,
        ⟨content, urlset, hd, hi, hu, rfl⟩, hk⟩

theorem rangeSitemaps_effect (c : Corpus)
    (call : String → ProgState → Option (ProgState × Option Error)) (cs : List Sitemap)
    (h : ∀ s ∈ cs, Effect c call s.Loc) :
    (∀ w, rangeSitemaps call cs w = none) ∨
    ∃ ks lg, (∀ w, rangeSitemaps call cs w = some (w.extend ks lg)) ∧
      (∀ k ∈ ks, ∃ L locs, LogEntry.processingSitemap L ∈ lg ∧ HandledAsURLSet c L locs ∧
        k ∈ locs) ∧
      (∀ k, k ∈ ks ↔ ∃ s ∈ cs, ∃ ws, call s.Loc ProgState.init = some (ws, none) ∧
        k ∈ ws.se.urls.keys) ∧
      (∀ s ∈ cs, ∀ err, (∃ ws, call s.Loc ProgState.init = some (ws, some err)) →
        LogEntry.nestedError s.Loc err ∈ lg) := by
  induction cs with
  | nil =>
    right
    refine ⟨[], [], ?_, ?_, ?_, ?_⟩
    · intro w
      simp [rangeSitemaps, ProgState.extend_nil]
    · intro k hk
      cases hk
    · intro k
      simp
    · intro s hs
      cases hs
  | cons s rest ih =>
    have hs := h s (List.mem_cons_self _ _)
    have hrest := ih (fun t ht => h t (List.mem_cons_of_mem _ ht))
    rcases hs with hnone | ⟨ks1, lg1, e, hcall, herr, hprov⟩
    · left
      intro w
      simp [rangeSitemaps, hnone w]
    · rcases hrest with hnone | ⟨ks2, lg2, hloop, hprov2, hmem2, hlog2⟩
      · left
        intro w
        cases e with
        | none => simp [rangeSitemaps, hcall w, hnone]
        | some err => simp [rangeSitemaps, hcall w, hnone]
      · right
        cases e with
        | none =>
          refine ⟨ks1 ++ ks2, lg1 ++ lg2, ?_, ?_, ?_, ?_⟩
          · intro w
            simp [rangeSitemaps, hcall w, hloop, ProgState.extend_extend]
          · intro k hk
            rcases List.mem_append.mp hk with hk | hk
            · obtain ⟨L, locs, hL, hH, hkl⟩ := hprov k hk
              exact ⟨L, locs, List.mem_append_left _ hL, hH, hkl⟩
            · obtain ⟨L, locs, hL, hH, hkl⟩ := hprov2 k hk
              exact ⟨L, locs, List.mem_append_right _ hL, hH, hkl⟩
          · intro k
            rw [List.mem_append, hmem2 k]
            constructor
            · rintro (hk | ⟨t, ht, ws, hws, hk⟩)
              · exact ⟨s, List.mem_cons_self _ _, _, hcall ProgState.init,
                  (ProgState.mem_init_extend ks1 lg1 k).mpr hk⟩
              · exact ⟨t, List.mem_cons_of_mem _ ht, ws, hws, hk⟩
            · rintro ⟨t, ht, ws, hws, hk⟩
              rcases List.mem_cons.mp ht with rfl | ht
              · left
                rw [hcall ProgState.init] at hws
                simp only [Option.some.injEq, Prod.mk.injEq, and_true] at hws
                subst hws
                exact (ProgState.mem_init_extend ks1 lg1 k).mp hk
              · exact Or.inr ⟨t, ht, ws, hws, hk⟩
          · intro t ht err hex
            rcases List.mem_cons.mp ht with rfl | ht
            · obtain ⟨ws, hws⟩ := hex
              rw [hcall ProgState.init] at hws
              simp at hws
            · exact List.mem_append_right _ (hlog2 t ht err hex)
        | some err =>
          obtain ⟨rfl, rfl⟩ := herr (by simp)
          refine ⟨ks2, LogEntry.nestedError s.Loc err :: lg2, ?_, ?_, ?_, ?_⟩
          · intro w
            simp [rangeSitemaps, hcall w, hloop, ProgState.printf_eq,
              ProgState.extend_extend]
          · intro k hk
            obtain ⟨L, locs, hL, hH, hkl⟩ := hprov2 k hk
            exact ⟨L, locs, List.mem_cons_of_mem _ hL, hH, hkl⟩
          · intro k
            rw [hmem2 k]
            constructor
            · rintro ⟨t, ht, ws, hws, hk⟩
              exact ⟨t, List.mem_cons_of_mem _ ht, ws, hws, hk⟩
            · rintro ⟨t, ht, ws, hws, hk⟩
              rcases List.mem_cons.mp ht with rfl | ht
              · rw [hcall ProgState.init] at hws
                simp at hws
              · exact ⟨t, ht, ws, hws, hk⟩
          · intro t ht err2 hex
            rcases List.mem_cons.mp ht with rfl | ht
            · obtain ⟨ws, hws⟩ := hex
              rw [hcall ProgState.init] at hws
              simp only [Option.some.injEq, Prod.mk.injEq] at hws
              obtain ⟨_, he⟩ := hws
              cases he
              exact List.mem_cons_self _ _
            · exact List.mem_cons_of_mem _ (hlog2 t ht err2 hex)

theorem parseSitemap_effect (c : Corpus) (depth : Nat) (url : String) :
    Effect c (parseSitemap c depth) url := by
  induction depth generalizing url with
  | zero =>
    left
    intro w
    rfl
  | succ n ih =>
    cases hd : downloadSitemap c url with
    | error err =>
      right
      refine ⟨[], [], some err, ?_, ?_, ?_⟩
      · intro w
        simp [parseSitemap, hd, ProgState.extend_nil]
      · intro _
        exact ⟨rfl, rfl⟩
      · intro k hk
        cases hk
    | ok content =>
      cases hi : unmarshalSitemapIndex c content with
      | none =>
        obtain ⟨ks, lg, e, hp, he, hprov⟩ :=
          parseURLSet_effect c url content hd (by intro idx h; rw [hi] at h; cases h)
        right
        refine ⟨ks, lg, e, ?_, he, hprov⟩
        intro w
        simp [parseSitemap, hd, hi, hp]
      | some idx =>
        by_cases hlen : idx.Sitemaps.length > 0
        · rcases rangeSitemaps_effect c (parseSitemap c n) idx.Sitemaps
            (fun s _ => ih s.Loc) with hnone | ⟨ks, lg, hloop, hprov, _, _⟩
          · left
            intro w
            simp [parseSitemap, hd, hi, hlen, hnone]
          · right
            refine ⟨ks, LogEntry.processingIndex url :: lg, none, ?_, ?_, ?_⟩
            · intro w
              simp [parseSitemap, hd, hi, hlen, hloop, ProgState.printf_eq,
                ProgState.extend_extend]
            · intro h
              exact absurd rfl h
            · intro k hk
              obtain ⟨L, locs, hL, hH, hkl⟩ := hprov k hk
              exact ⟨L, locs, List.mem_cons_of_mem _ hL, hH, hkl⟩
        · obtain ⟨ks, lg, e, hp, he, hprov⟩ :=
            parseURLSet_effect c url content hd (by
              intro idx2 h
              rw [hi] at h
              cases h
              exact List.length_eq_zero.mp (Nat.eq_zero_of_not_pos hlen))
          right
          refine ⟨ks, lg, e, ?_, he, hprov⟩
          intro w
          simp [parseSitemap, hd, hi, hlen, hp]

/-- Whether a call returns does not depend on the state it starts from. -/
theorem parseSitemap_isSome_of_isSome (c : Corpus) (depth : Nat) (url : String)
    (w w2 : ProgState) (h : (parseSitemap c depth url w).isSome) :
    (parseSitemap c depth url w2).isSome := by
  rcases parseSitemap_effect c depth url with hnone | ⟨ks, lg, e, hcall, _, _⟩
  · rw [hnone w] at h
    cases h
  · rw [hcall w2]
    rfl

theorem rangeSitemaps_mono
    (call call2 : String → ProgState → Option (ProgState × Option Error))
    (hc : ∀ url w r, call url w = some r → call2 url w = some r) (cs : List Sitemap)
    (w w1 : ProgState) (h : rangeSitemaps call cs w = some w1) :
    rangeSitemaps call2 cs w = some w1 := by
  induction cs generalizing w with
  | nil => simpa [rangeSitemaps] using h
  | cons s rest ih =>
    cases hs : call s.Loc w with
    | none => simp [rangeSitemaps, hs] at h
    | some r =>
      obtain ⟨w2, e⟩ := r
      have hs2 := hc _ _ _ hs
      cases e with
      | none =>
        simp only [rangeSitemaps, hs] at h
        simp only [rangeSitemaps, hs2]
        exact ih _ h
      | some err =>
        simp only [rangeSitemaps, hs] at h
        simp only [rangeSitemaps, hs2]
        exact ih _ h

/-- A call that returns within a budget returns the same with a larger one. -/
theorem parseSitemap_succ (c : Corpus) (depth : Nat) (url : String) (w : ProgState)
    (r : ProgState × Option Error) (h : parseSitemap c depth url w = some r) :
    parseSitemap c (depth + 1) url w = some r := by
  induction depth generalizing url w r with
  | zero => cases h
  | succ n ih =>
    unfold parseSitemap at h ⊢
    cases hd : downloadSitemap c url with
    | error err => simpa [hd] using h
    | ok content =>
      simp only [hd] at h ⊢
      cases hi : unmarshalSitemapIndex c content with
      | none => simpa [hi] using h
      | some idx =>
        simp only [hi] at h ⊢
        by_cases hlen : idx.Sitemaps.length > 0
        · simp only [hlen, if_true] at h ⊢
          cases hl : rangeSitemaps (parseSitemap c n) idx.Sitemaps
              (w.printf (.processingIndex url)) with
          | none => simp [hl] at h
          | some w1 =>
            rw [rangeSitemaps_mono _ _ (fun u v q hq => ih u v q hq) _ _ _ hl]
            rw [hl] at h
            exact h
        · simpa [hlen] using h

theorem parseSitemap_mono (c : Corpus) (depth depth2 : Nat) (hle : depth ≤ depth2)
    (url : String) (w : ProgState) (r : ProgState × Option Error)
    (h : parseSitemap c depth url w = some r) : parseSitemap c depth2 url w = some r := by
  induction hle with
  | refl => exact h
  | step _ ih => exact parseSitemap_succ c _ url w r ih

theorem rangeSitemaps_none_of_mem
    (call : String → ProgState → Option (ProgState × Option Error)) (cs : List Sitemap)
    (s : Sitemap) (hs : s ∈ cs) (hnone : ∀ w, call s.Loc w = none) (w : ProgState) :
    rangeSitemaps call cs w = none := by
  induction cs generalizing w with
  | nil => cases hs
  | cons t rest ih =>
    cases ht : call t.Loc w with
    | none => simp [rangeSitemaps, ht]
    | some r =>
      obtain ⟨w1, e⟩ := r
      have hmem : s ∈ rest := by
        rcases List.mem_cons.mp hs with rfl | h
        · rw [hnone w] at ht
          cases ht
        · exact h
      cases e with
      | none => simpa [rangeSitemaps, ht] using ih hmem _
      | some err => simpa [rangeSitemaps, ht] using ih hmem _

theorem unmarshalSitemapIndex_of_urlset (c : Corpus) (content : Bytes) (urlset : URLSet)
    (h : unmarshalURLSet c content = some urlset) : unmarshalSitemapIndex c content = none := by
  unfold unmarshalURLSet at h
  unfold unmarshalSitemapIndex
  cases hd : c.decodeXML content with
  | none => rfl
  | some doc =>
    rw [hd] at h
    by_cases hn : doc.name = "urlset"
    · have : ¬ doc.name = "sitemapindex" := by
        rw [hn]
        decide
      simp [this]
    · simp [hn] at h

theorem unmarshalURLSet_of_index (c : Corpus) (content : Bytes) (idx : SitemapIndex)
    (h : unmarshalSitemapIndex c content = some idx) : unmarshalURLSet c content = none := by
  cases hu : unmarshalURLSet c content with
  | none => rfl
  | some urlset =>
    rw [unmarshalSitemapIndex_of_urlset c content urlset hu] at h
    cases h

/-- The call on a document that is handled as a sitemap index: it exceeds the budget, or
it inserts exactly the keys its children insert and logs each error of a child. -/
theorem parseSitemap_index (c : Corpus) (n : Nat) (root : String) (content : Bytes)
    (idx : SitemapIndex) (hd : downloadSitemap c root = .ok content)
    (hi : unmarshalSitemapIndex c content = some idx) (hlen : 0 < idx.Sitemaps.length) :
    (∀ w, parseSitemap c (n + 1) root w = none) ∨
    ∃ ks lg, (∀ w, parseSitemap c (n + 1) root w =
        some (w.extend ks (LogEntry.processingIndex root :: lg), none)) ∧
      (∀ k ∈ ks, ∃ L locs, LogEntry.processingSitemap L ∈ lg ∧ HandledAsURLSet c L locs ∧
        k ∈ locs) ∧
      (∀ k, k ∈ ks ↔ ∃ s ∈ idx.Sitemaps, ∃ ws,
        parseSitemap c n s.Loc ProgState.init = some (ws, none) ∧ k ∈ ws.se.urls.keys) ∧
      (∀ s ∈ idx.Sitemaps, ∀ err,
        (∃ ws, parseSitemap c n s.Loc ProgState.init = some (ws, some err)) →
        LogEntry.nestedError s.Loc err ∈ lg) := by
  rcases rangeSitemaps_effect c (parseSitemap c n) idx.Sitemaps
    (fun s _ => parseSitemap_effect c n s.Loc) with hnone | ⟨ks, lg, hloop, hprov, hmem, hlog⟩
  · left
    intro w
    simp [parseSitemap, hd, hi, hlen, hnone]
  · right
    refine ⟨ks, lg, ?_, hprov, hmem, hlog⟩
    intro w
    simp [parseSitemap, hd, hi, hlen, hloop, ProgState.printf_eq, ProgState.extend_extend]

/-- The call on an index returns when the calls on its children return. -/
theorem parseSitemap_index_isSome (c : Corpus) (n : Nat) (root : String) (content : Bytes)
    (idx : SitemapIndex) (hd : downloadSitemap c root = .ok content)
    (hi : unmarshalSitemapIndex c content = some idx) (hlen : 0 < idx.Sitemaps.length)
    (hterm : ∀ s ∈ idx.Sitemaps, (parseSitemap c n s.Loc ProgState.init).isSome)
    (w : ProgState) : parseSitemap c (n + 1) root w ≠ none := by
  have key : ∀ (cs : List Sitemap) (v : ProgState),
      (∀ s ∈ cs, (parseSitemap c n s.Loc ProgState.init).isSome) →
      (rangeSitemaps (parseSitemap c n) cs v).isSome := by
    intro cs
    induction cs with
    | nil =>
      intro v _
      rfl
    | cons s rest ih =>
      intro v hall
      have hs := parseSitemap_isSome_of_isSome c n s.Loc _ v (hall s (List.mem_cons_self _ _))
      have hr := fun v2 => ih v2 (fun t ht => hall t (List.mem_cons_of_mem _ ht))
      cases hcall : parseSitemap c n s.Loc v with
      | none =>
        rw [hcall] at hs
        cases hs
      | some r =>
        obtain ⟨w1, e⟩ := r
        cases e with
        | none => simpa [rangeSitemaps, hcall] using hr _
        | some err => simpa [rangeSitemaps, hcall] using hr _
  have hk := key idx.Sitemaps (w.printf (.processingIndex root)) hterm
  intro hnone
  simp only [parseSitemap, hd, hi, hlen, if_true] at hnone
  cases hr : rangeSitemaps (parseSitemap c n) idx.Sitemaps (w.printf (.processingIndex root)) with
  | none =>
    rw [hr] at hk
    cases hk
  | some w1 =>
    rw [hr] at hnone
    cases hnone

/-- The call on a document that is handled as a URL set. -/
theorem parseSitemap_urlset (c : Corpus) (n : Nat) (url : String) (content : Bytes)
    (urlset : URLSet) (hd : downloadSitemap c url = .ok content)
    (hu : unmarshalURLSet c content = some urlset) (w : ProgState) :
    parseSitemap c (n + 1) url w =
      some (w.extend (urlset.URLs.map URL.Loc) [.processingSitemap url], none) := by
  simp [parseSitemap, hd, unmarshalSitemapIndex_of_urlset c content urlset hu, parseURLSet, hu,
    ProgState.extend, insertURLs_eq]

/-- A call on an index exceeds the budget when the call on one listed child does. -/
theorem parseSitemap_none_of_lists (c : Corpus) (X Y : String) (m : Nat)
    (hXY : ListsChild c X Y) (hY : ∀ v, parseSitemap c m Y v = none) (v : ProgState) :
    parseSitemap c (m + 1) X v = none := by
  obtain ⟨content, idx, hd, hi, hlen, hmem⟩ := hXY
  obtain ⟨s, hs, hsY⟩ := List.mem_map.mp hmem
  have hloop := rangeSitemaps_none_of_mem (parseSitemap c m) idx.Sitemaps s hs
    (by rw [hsY]; exact hY) (v.printf (.processingIndex X))
  simp [parseSitemap, hd, hi, hlen, hloop]

/-- Two indexes that list each other: the call on either exceeds every budget. -/
theorem parseSitemap_none_of_loop (c : Corpus) (A B : String)
    (hAB : ListsChild c A B) (hBA : ListsChild c B A) (m : Nat) :
    (∀ v, parseSitemap c m A v = none) ∧ (∀ v, parseSitemap c m B v = none) := by
  induction m with
  | zero => exact ⟨fun _ => rfl, fun _ => rfl⟩
  | succ m ih =>
    exact ⟨parseSitemap_none_of_lists c A B m hAB ih.2,
      parseSitemap_none_of_lists c B A m hBA ih.1⟩

/-! ## The claims -/

/-- C1: when `parseSitemap(root)` returns, `ExtractURLs(root)` returns a list in strictly
ascending string order without a repeated string, whose elements are exactly the keys of
the URL map after `parseSitemap(root)` has run; each of them occurs once, however often
the documents list it. -/
theorem ExtractURLs_sorted_exact (c : Corpus) (depth : Nat) (root : String)
    (w w1 : ProgState) (err : Option Error)
    (h : parseSitemap c depth root w = some (w1, err)) :
    ∃ w2 out, ExtractURLs c depth root w = some (w2, out) ∧ w2.se = w1.se ∧
      List.Sorted (fun a b : String => a < b) out ∧ out.Nodup ∧
      (∀ u, u ∈ out ↔ u ∈ w1.se.urls.keys) ∧ (∀ u ∈ w1.se.urls.keys, out.count u = 1) := by
  have hcount : ∀ u ∈ w1.se.urls.keys, (sortStrings w1.se.urls.keys).count u = 1 := by
    intro u hu
    exact List.count_eq_one_of_mem (sortStrings_nodup w1.se.urls.nodup)
      ((mem_sortStrings _ u).mpr hu)
  cases err with
  | none =>
    exact ⟨w1, sortStrings w1.se.urls.keys, by simp [ExtractURLs, h], rfl,
      sortStrings_sorted_lt w1.se.urls.nodup, sortStrings_nodup w1.se.urls.nodup,
      mem_sortStrings _, hcount⟩
  | some e =>
    exact ⟨w1.printf (.extractError e), sortStrings w1.se.urls.keys, by simp [ExtractURLs, h],
      rfl, sortStrings_sorted_lt w1.se.urls.nodup, sortStrings_nodup w1.se.urls.nodup,
      mem_sortStrings _, hcount⟩

/-- C1 at a URL set that lists `http://x/2` twice: the result holds it once. -/
theorem ExtractURLs_sorted_exact_witness :
    parseSitemap dupCorpus 1 "http://x/sitemap.xml" ProgState.init =
      some (⟨⟨⟨["http://x/2", "http://x/1"], by decide⟩⟩,
        [.processingSitemap "http://x/sitemap.xml"]⟩, none) ∧
    ∃ w2 out, ExtractURLs dupCorpus 1 "http://x/sitemap.xml" ProgState.init = some (w2, out) ∧
      w2.se = ⟨⟨["http://x/2", "http://x/1"], by decide⟩⟩ ∧
      List.Sorted (fun a b : String => a < b) out ∧ out.Nodup ∧
      (∀ u, u ∈ out ↔ u ∈ ["http://x/2", "http://x/1"]) ∧
      (∀ u ∈ ["http://x/2", "http://x/1"], out.count u = 1) :=
  ⟨by decide, ExtractURLs_sorted_exact dupCorpus 1 "http://x/sitemap.xml" ProgState.init
    ⟨⟨⟨["http://x/2", "http://x/1"], by decide⟩⟩, [.processingSitemap "http://x/sitemap.xml"]⟩
    none (by decide)⟩


/-- C2: from a fresh extractor, a root that is a sitemap index whose children all fetch and
unmarshal as URL sets gives the strictly ascending list of exactly the `<loc>` entries of
the children, whether or not the children overlap. -/
theorem ExtractURLs_index_of_urlsets (c : Corpus) (n : Nat) (root : String) (content : Bytes)
    (idx : SitemapIndex) (hd : downloadSitemap c root = .ok content)
    (hi : unmarshalSitemapIndex c content = some idx) (hlen : 0 < idx.Sitemaps.length)
    (hch : ∀ s ∈ idx.Sitemaps, ∃ cc urlset,
      downloadSitemap c s.Loc = .ok cc ∧ unmarshalURLSet c cc = some urlset) :
    ∃ w2 out, ExtractURLs c (n + 2) root ProgState.init = some (w2, out) ∧
      List.Sorted (fun a b : String => a < b) out ∧
      ∀ u, u ∈ out ↔ ∃ s ∈ idx.Sitemaps, ∃ cc urlset, downloadSitemap c s.Loc = .ok cc ∧
        unmarshalURLSet c cc = some urlset ∧ u ∈ urlset.URLs.map URL.Loc := by
  have hterm : ∀ s ∈ idx.Sitemaps, (parseSitemap c (n + 1) s.Loc ProgState.init).isSome := by
    intro s hs
    obtain ⟨cc, urlset, hdc, huc⟩ := hch s hs
    rw [parseSitemap_urlset c n s.Loc cc urlset hdc huc]
    rfl
  rcases parseSitemap_index c (n + 1) root content idx hd hi hlen with
    hnone | ⟨ks, lg, hcall, _, hmem, _⟩
  · exact absurd (hnone ProgState.init)
      (parseSitemap_index_isSome c (n + 1) root content idx hd hi hlen hterm _)
  · refine ⟨ProgState.init.extend ks (LogEntry.processingIndex root :: lg),
      sortStrings (ProgState.init.extend ks (LogEntry.processingIndex root :: lg)).se.urls.keys,
      by simp only [ExtractURLs, hcall ProgState.init], ?_, ?_⟩
    · exact sortStrings_sorted_lt (StringSet.nodup _)
    · intro u
      rw [mem_sortStrings, ProgState.mem_init_extend, hmem u]
      constructor
      · rintro ⟨s, hs, ws, hws, hu⟩
        obtain ⟨cc, urlset, hdc, huc⟩ := hch s hs
        rw [parseSitemap_urlset c n s.Loc cc urlset hdc huc] at hws
        simp only [Option.some.injEq, Prod.mk.injEq, and_true] at hws
        subst hws
        exact ⟨s, hs, cc, urlset, hdc, huc, (ProgState.mem_init_extend _ _ u).mp hu⟩
      · rintro ⟨s, hs, cc, urlset, hdc, huc, hu⟩
        exact ⟨s, hs, _, parseSitemap_urlset c n s.Loc cc urlset hdc huc ProgState.init,
          (ProgState.mem_init_extend _ _ u).mpr hu⟩

/-- C2 at the end-to-end example: children `{http://x/1, http://x/2}` and
`{http://x/2, http://x/3}` give `[http://x/1, http://x/2, http://x/3]`. -/
theorem ExtractURLs_index_of_urlsets_witness :
    (ExtractURLs exampleCorpus 2 "http://x/sitemap.xml" ProgState.init).map Prod.snd =
      some ["http://x/1", "http://x/2", "http://x/3"] ∧
    ∃ w2 out, ExtractURLs exampleCorpus 2 "http://x/sitemap.xml" ProgState.init =
        some (w2, out) ∧
      List.Sorted (fun a b : String => a < b) out ∧
      ∀ u, u ∈ out ↔ ∃ s ∈ [Sitemap.mk "http://x/a.xml", Sitemap.mk "http://x/b.xml"],
        ∃ cc urlset, downloadSitemap exampleCorpus s.Loc = .ok cc ∧
          unmarshalURLSet exampleCorpus cc = some urlset ∧ u ∈ urlset.URLs.map URL.Loc :=
  ⟨by decide,
   ExtractURLs_index_of_urlsets exampleCorpus 0 "http://x/sitemap.xml"
    (bytesOf (sitemapindexXML ["http://x/a.xml", "http://x/b.xml"]))
    ⟨[⟨"http://x/a.xml"⟩, ⟨"http://x/b.xml"⟩]⟩ (by decide) (by decide) (by decide)
    (by
      intro s hs
      simp only [List.mem_cons, List.mem_singleton, List.not_mem_nil, or_false] at hs
      rcases hs with rfl | rfl
      · exact ⟨bytesOf (urlsetXML ["http://x/1", "http://x/2"]),
          ⟨[⟨"http://x/1"⟩, ⟨"http://x/2"⟩]⟩, by decide, by decide⟩
      · exact ⟨bytesOf (urlsetXML ["http://x/2", "http://x/3"]),
          ⟨[⟨"http://x/2"⟩, ⟨"http://x/3"⟩]⟩, by decide, by decide⟩)⟩

/-- C3, as stated for any list of children, fails: on a root index that lists a child
answering 404 and then an index that lists the root again, the second child's resolution
recurses without end, so `ExtractURLs(root)` returns within no budget and no list equals the
union of the non-failing children. -/
theorem ExtractURLs_partial_failure_counterexample :
    downloadSitemap loopCorpus "http://x/sitemap.xml" =
      .ok (bytesOf (sitemapindexXML ["http://x/b.xml", "http://x/a.xml"])) ∧
    unmarshalSitemapIndex loopCorpus
      (bytesOf (sitemapindexXML ["http://x/b.xml", "http://x/a.xml"])) =
      some ⟨[⟨"http://x/b.xml"⟩, ⟨"http://x/a.xml"⟩]⟩ ∧
    downloadSitemap loopCorpus "http://x/b.xml" = .error (.non200 404) ∧
    ¬ ∃ n w2 out, ExtractURLs loopCorpus n "http://x/sitemap.xml" ProgState.init =
      some (w2, out) := by
  have hRA : ListsChild loopCorpus "http://x/sitemap.xml" "http://x/a.xml" :=
    ⟨bytesOf (sitemapindexXML ["http://x/b.xml", "http://x/a.xml"]),
      ⟨[⟨"http://x/b.xml"⟩, ⟨"http://x/a.xml"⟩]⟩, by decide, by decide, by decide, by decide⟩
  have hAR : ListsChild loopCorpus "http://x/a.xml" "http://x/sitemap.xml" :=
    ⟨bytesOf (sitemapindexXML ["http://x/sitemap.xml"]), ⟨[⟨"http://x/sitemap.xml"⟩]⟩,
      by decide, by decide, by decide, by decide⟩
  refine ⟨by decide, by decide, by decide, ?_⟩
  rintro ⟨n, w2, out, h⟩
  have hnone := (parseSitemap_none_of_loop loopCorpus "http://x/sitemap.xml" "http://x/a.xml"
    hRA hAR n).1 ProgState.init
  simp [ExtractURLs, hnone] at h

/-- C3, amended: from a fresh extractor, for a root that is a sitemap index whose children
each return within the budget (with or without an error), `ExtractURLs(root)` returns the
strictly ascending list of exactly the URLs inserted by the children that return no error;
a child that returns an error (a failed fetch or a failed parse) leaves the state it started
from unchanged, its error is logged, and the children listed after it are still resolved. -/
theorem ExtractURLs_partial_failure (c : Corpus) (n : Nat) (root : String) (content : Bytes)
    (idx : SitemapIndex) (hd : downloadSitemap c root = .ok content)
    (hi : unmarshalSitemapIndex c content = some idx) (hlen : 0 < idx.Sitemaps.length)
    (hterm : ∀ s ∈ idx.Sitemaps, (parseSitemap c n s.Loc ProgState.init).isSome) :
    ∃ w2 out, ExtractURLs c (n + 1) root ProgState.init = some (w2, out) ∧
      List.Sorted (fun a b : String => a < b) out ∧
      (∀ u, u ∈ out ↔ ∃ s ∈ idx.Sitemaps, ∃ ws,
        parseSitemap c n s.Loc ProgState.init = some (ws, none) ∧ u ∈ ws.se.urls.keys) ∧
      (∀ s ∈ idx.Sitemaps, ∀ w ws err, parseSitemap c n s.Loc w = some (ws, some err) →
        ws = w ∧ LogEntry.nestedError s.Loc err ∈ w2.log) := by
  rcases parseSitemap_index c n root content idx hd hi hlen with
    hnone | ⟨ks, lg, hcall, _, hmem, hlog⟩
  · exact absurd (hnone ProgState.init)
      (parseSitemap_index_isSome c n root content idx hd hi hlen hterm _)
  · refine ⟨ProgState.init.extend ks (LogEntry.processingIndex root :: lg),
      sortStrings (ProgState.init.extend ks (LogEntry.processingIndex root :: lg)).se.urls.keys,
      by simp only [ExtractURLs, hcall ProgState.init], ?_, ?_, ?_⟩
    · exact sortStrings_sorted_lt (StringSet.nodup _)
    · intro u
      rw [mem_sortStrings, ProgState.mem_init_extend, hmem u]
    · intro s hs w ws err hws
      rcases parseSitemap_effect c n s.Loc with hn | ⟨ks1, lg1, e, hc, he, _⟩
      · rw [hn w] at hws
        cases hws
      · have h1 := hc w
        rw [hws] at h1
        simp only [Option.some.injEq, Prod.mk.injEq] at h1
        obtain ⟨hw, hee⟩ := h1
        obtain ⟨rfl, rfl⟩ := he (by rw [← hee]; simp)
        rw [ProgState.extend_nil] at hw
        refine ⟨hw, ?_⟩
        have h2 := hlog s hs err ⟨ProgState.init.extend [] [], by rw [hc ProgState.init, ← hee]⟩
        simp only [ProgState.extend, ProgState.init, List.nil_append]
        exact List.mem_cons_of_mem _ h2

/-- C3 at a root index with three URL-set children of which the second answers 404: the
result is the sorted union of the first and the third child. -/
theorem ExtractURLs_partial_failure_witness :
    (ExtractURLs partialCorpus 2 "http://x/sitemap.xml" ProgState.init).map Prod.snd =
      some ["http://x/1", "http://x/2", "http://x/3"] ∧
    downloadSitemap partialCorpus "http://x/b.xml" = .error (.non200 404) ∧
    ∃ w2 out, ExtractURLs partialCorpus 2 "http://x/sitemap.xml" ProgState.init =
        some (w2, out) ∧
      List.Sorted (fun a b : String => a < b) out ∧
      (∀ u, u ∈ out ↔ ∃ s ∈ [Sitemap.mk "http://x/a.xml", Sitemap.mk "http://x/b.xml",
          Sitemap.mk "http://x/c.xml"], ∃ ws,
        parseSitemap partialCorpus 1 s.Loc ProgState.init = some (ws, none) ∧
          u ∈ ws.se.urls.keys) ∧
      (∀ s ∈ [Sitemap.mk "http://x/a.xml", Sitemap.mk "http://x/b.xml",
          Sitemap.mk "http://x/c.xml"], ∀ w ws err,
        parseSitemap partialCorpus 1 s.Loc w = some (ws, some err) →
        ws = w ∧ LogEntry.nestedError s.Loc err ∈ w2.log) :=
  ⟨by decide, by decide,
   ExtractURLs_partial_failure partialCorpus 1 "http://x/sitemap.xml"
    (bytesOf (sitemapindexXML ["http://x/a.xml", "http://x/b.xml", "http://x/c.xml"]))
    ⟨[⟨"http://x/a.xml"⟩, ⟨"http://x/b.xml"⟩, ⟨"http://x/c.xml"⟩]⟩
    (by decide) (by decide) (by decide) (by decide)⟩

/-- C4: from a fresh extractor, when the fetch of the root returns an error, or the root
content is neither a sitemap index with an entry nor a parseable URL set, `parseSitemap`
returns that error without touching the state, and `ExtractURLs(root)` returns the empty
list with the error logged. -/
theorem ExtractURLs_root_failure (c : Corpus) (n : Nat) (root : String)
    (h : (∃ e, downloadSitemap c root = .error e) ∨
      ∃ content, downloadSitemap c root = .ok content ∧
        (∀ idx, unmarshalSitemapIndex c content = some idx → idx.Sitemaps.length = 0) ∧
        unmarshalURLSet c content = none) :
    ∃ e, parseSitemap c (n + 1) root ProgState.init = some (ProgState.init, some e) ∧
      ExtractURLs c (n + 1) root ProgState.init =
        some (⟨NewSitemapExtractor, [.extractError e]⟩, []) := by
  have key : ∀ e, parseSitemap c (n + 1) root ProgState.init = some (ProgState.init, some e) →
      ExtractURLs c (n + 1) root ProgState.init =
        some (⟨NewSitemapExtractor, [.extractError e]⟩, []) := by
    intro e he
    simp only [ExtractURLs, he]
    rfl
  rcases h with ⟨e, he⟩ | ⟨content, hd, hi, hu⟩
  · have hp : parseSitemap c (n + 1) root ProgState.init = some (ProgState.init, some e) := by
      simp [parseSitemap, he]
    exact ⟨e, hp, key e hp⟩
  · have hp : parseSitemap c (n + 1) root ProgState.init =
        some (ProgState.init, some .parsingXML) := by
      cases hidx : unmarshalSitemapIndex c content with
      | none => simp [parseSitemap, hd, hidx, parseURLSet, hu]
      | some idx =>
        have := hi idx hidx
        simp [parseSitemap, hd, hidx, this, parseURLSet, hu]
    exact ⟨_, hp, key _ hp⟩

/-- C4 at a root that answers 404 and at a root whose content does not parse. -/
theorem ExtractURLs_root_failure_witness :
    (∃ e, parseSitemap partialCorpus 1 "http://x/b.xml" ProgState.init =
        some (ProgState.init, some e) ∧
      ExtractURLs partialCorpus 1 "http://x/b.xml" ProgState.init =
        some (⟨NewSitemapExtractor, [.extractError e]⟩, [])) ∧
    (∃ e, parseSitemap emptyIndexCorpus 1 "http://x/sitemap.xml" ProgState.init =
        some (ProgState.init, some e) ∧
      ExtractURLs emptyIndexCorpus 1 "http://x/sitemap.xml" ProgState.init =
        some (⟨NewSitemapExtractor, [.extractError e]⟩, [])) :=
  ⟨ExtractURLs_root_failure partialCorpus 0 "http://x/b.xml"
      (Or.inl ⟨.non200 404, by decide⟩),
   ExtractURLs_root_failure emptyIndexCorpus 0 "http://x/sitemap.xml"
      (Or.inr ⟨bytesOf "<sitemapindex></sitemapindex>", by decide,
        by
          intro idx hidx
          have h0 : unmarshalSitemapIndex emptyIndexCorpus
              (bytesOf "<sitemapindex></sitemapindex>") = some ⟨[]⟩ := by decide
          rw [h0] at hidx
          cases hidx
          rfl,
        by decide⟩)⟩

/-- C5: a fetched document that unmarshals as a sitemap index with no entry is not handled
as an index: `parseSitemap` goes on to the URL-set part on the same bytes and its outcome is
the outcome of that part, which is the parse error with the state unchanged (no line
"Processing sitemap index", no URL inserted). -/
theorem parseSitemap_empty_index (c : Corpus) (n : Nat) (url : String) (content : Bytes)
    (idx : SitemapIndex) (w : ProgState) (hd : downloadSitemap c url = .ok content)
    (hi : unmarshalSitemapIndex c content = some idx) (hz : idx.Sitemaps.length = 0) :
    parseSitemap c (n + 1) url w = some (parseURLSet c url content w) ∧
    parseURLSet c url content w = (w, some .parsingXML) ∧
    parseSitemap c (n + 1) url w ≠ some (w.printf (.processingIndex url), none) := by
  have h1 : parseSitemap c (n + 1) url w = some (parseURLSet c url content w) := by
    simp [parseSitemap, hd, hi, hz]
  have h2 : parseURLSet c url content w = (w, some .parsingXML) := by
    simp [parseURLSet, unmarshalURLSet_of_index c content idx hi]
  refine ⟨h1, h2, ?_⟩
  rw [h1, h2]
  intro h
  simp at h

/-- C5 at the document `<sitemapindex></sitemapindex>`: a parse error, no URL inserted. -/
theorem parseSitemap_empty_index_witness :
    downloadSitemap emptyIndexCorpus "http://x/sitemap.xml" =
      .ok (bytesOf "<sitemapindex></sitemapindex>") ∧
    unmarshalSitemapIndex emptyIndexCorpus (bytesOf "<sitemapindex></sitemapindex>") =
      some ⟨[]⟩ ∧
    parseSitemap emptyIndexCorpus 1 "http://x/sitemap.xml" ProgState.init =
      some (parseURLSet emptyIndexCorpus "http://x/sitemap.xml"
        (bytesOf "<sitemapindex></sitemapindex>") ProgState.init) ∧
    parseURLSet emptyIndexCorpus "http://x/sitemap.xml"
      (bytesOf "<sitemapindex></sitemapindex>") ProgState.init =
      (ProgState.init, some .parsingXML) ∧
    parseSitemap emptyIndexCorpus 1 "http://x/sitemap.xml" ProgState.init ≠
      some (ProgState.init.printf (.processingIndex "http://x/sitemap.xml"), none) :=
  ⟨by decide, by decide,
   parseSitemap_empty_index emptyIndexCorpus 0 "http://x/sitemap.xml"
    (bytesOf "<sitemapindex></sitemapindex>") ⟨[]⟩ ProgState.init (by decide) (by decide)
    (by decide)⟩

/-- C6: when `ExtractURLs(root)` returns a list, a second call on the same extractor
returns the same list, and so does a call on any extractor whose map holds the same keys as
the first one held at the start. -/
theorem ExtractURLs_idempotent (c : Corpus) (depth : Nat) (root : String)
    (w w1 : ProgState) (out : List String)
    (h : ExtractURLs c depth root w = some (w1, out)) :
    (∃ w2, ExtractURLs c depth root w1 = some (w2, out)) ∧
    ∀ v : ProgState, (∀ u, u ∈ v.se.urls.keys ↔ u ∈ w.se.urls.keys) →
      ∃ v1, ExtractURLs c depth root v = some (v1, out) := by
  rcases parseSitemap_effect c depth root with hnone | ⟨ks, lg, e, hcall, _, _⟩
  · simp [ExtractURLs, hnone w] at h
  · have hform : ∀ v : ProgState, ∃ v1, ExtractURLs c depth root v =
        some (v1, sortStrings (v.extend ks lg).se.urls.keys) := by
      intro v
      cases e with
      | none => exact ⟨v.extend ks lg, by simp only [ExtractURLs, hcall v]⟩
      | some err =>
        exact ⟨(v.extend ks lg).printf (.extractError err), by
          simp only [ExtractURLs, hcall v]⟩
    have hw1 : w1.se = (w.extend ks lg).se ∧ out = sortStrings (w.extend ks lg).se.urls.keys := by
      cases e with
      | none =>
        simp only [ExtractURLs, hcall w, Option.some.injEq, Prod.mk.injEq] at h
        exact ⟨by rw [← h.1], h.2.symm⟩
      | some err =>
        simp only [ExtractURLs, hcall w, Option.some.injEq, Prod.mk.injEq] at h
        exact ⟨by rw [← h.1]; rfl, h.2.symm⟩
    obtain ⟨hse, hout⟩ := hw1
    constructor
    · obtain ⟨w2, hw2⟩ := hform w1
      refine ⟨w2, ?_⟩
      rw [hw2, hout]
      congr 2
      apply sortStrings_congr (StringSet.nodup _) (StringSet.nodup _)
      intro u
      rw [ProgState.mem_extend, hse, ProgState.mem_extend]
      tauto
    · intro v hv
      obtain ⟨v1, hv1⟩ := hform v
      refine ⟨v1, ?_⟩
      rw [hv1, hout]
      congr 2
      apply sortStrings_congr (StringSet.nodup _) (StringSet.nodup _)
      intro u
      rw [ProgState.mem_extend, ProgState.mem_extend, hv u]

/-- C6 at the end-to-end example. -/
theorem ExtractURLs_idempotent_witness :
    ExtractURLs exampleCorpus 2 "http://x/sitemap.xml" ProgState.init =
      some (⟨⟨⟨["http://x/1", "http://x/2", "http://x/3"], by decide⟩⟩,
        [.processingIndex "http://x/sitemap.xml", .processingSitemap "http://x/a.xml",
         .processingSitemap "http://x/b.xml"]⟩, ["http://x/1", "http://x/2", "http://x/3"]) ∧
    (∃ w2, ExtractURLs exampleCorpus 2 "http://x/sitemap.xml"
        ⟨⟨⟨["http://x/1", "http://x/2", "http://x/3"], by decide⟩⟩,
          [.processingIndex "http://x/sitemap.xml", .processingSitemap "http://x/a.xml",
           .processingSitemap "http://x/b.xml"]⟩ =
        some (w2, ["http://x/1", "http://x/2", "http://x/3"])) ∧
    ∀ v : ProgState, (∀ u, u ∈ v.se.urls.keys ↔ u ∈ ProgState.init.se.urls.keys) →
      ∃ v1, ExtractURLs exampleCorpus 2 "http://x/sitemap.xml" v =
        some (v1, ["http://x/1", "http://x/2", "http://x/3"]) :=
  ⟨by decide,
   ExtractURLs_idempotent exampleCorpus 2 "http://x/sitemap.xml" ProgState.init
    ⟨⟨⟨["http://x/1", "http://x/2", "http://x/3"], by decide⟩⟩,
      [.processingIndex "http://x/sitemap.xml", .processingSitemap "http://x/a.xml",
       .processingSitemap "http://x/b.xml"]⟩
    ["http://x/1", "http://x/2", "http://x/3"] (by decide)⟩

/-- C8: from a fresh extractor, every string of the result of `ExtractURLs(root)` is an
entry of a document that was fetched in this run and handled as a URL set (the run logged
"Processing sitemap" for its location); and a call on a document handled as a sitemap index
adds to the map only what the calls on its children add, so that a listed location gets
into the map through the entries of some URL set or not at all. -/
theorem ExtractURLs_provenance (c : Corpus) (depth : Nat) (root : String) (w2 : ProgState)
    (out : List String) (h : ExtractURLs c depth root ProgState.init = some (w2, out)) :
    (∀ u ∈ out, ∃ L locs, LogEntry.processingSitemap L ∈ w2.log ∧
      HandledAsURLSet c L locs ∧ u ∈ locs) ∧
    (∀ (L : String) (content : Bytes) (idx : SitemapIndex) (n : Nat) (w w1 : ProgState)
      (e : Option Error), downloadSitemap c L = .ok content →
      unmarshalSitemapIndex c content = some idx → 0 < idx.Sitemaps.length →
      parseSitemap c (n + 1) L w = some (w1, e) →
      ∀ u ∈ w1.se.urls.keys, u ∈ w.se.urls.keys ∨ ∃ s ∈ idx.Sitemaps, ∃ ws,
        parseSitemap c n s.Loc ProgState.init = some (ws, none) ∧ u ∈ ws.se.urls.keys) := by
  constructor
  · rcases parseSitemap_effect c depth root with hnone | ⟨ks, lg, e, hcall, _, hprov⟩
    · simp [ExtractURLs, hnone ProgState.init] at h
    · have hlog : ∀ x, x ∈ lg → x ∈ w2.log := by
        intro x hx
        cases e with
        | none =>
          simp only [ExtractURLs, hcall ProgState.init, Option.some.injEq,
            Prod.mk.injEq] at h
          rw [← h.1]
          simp [ProgState.extend, hx]
        | some err =>
          simp only [ExtractURLs, hcall ProgState.init, Option.some.injEq,
            Prod.mk.injEq] at h
          rw [← h.1]
          simp [ProgState.extend, ProgState.printf, hx]
      have hout : out = sortStrings (ProgState.init.extend ks lg).se.urls.keys := by
        cases e with
        | none =>
          simp only [ExtractURLs, hcall ProgState.init, Option.some.injEq,
            Prod.mk.injEq] at h
          exact h.2.symm
        | some err =>
          simp only [ExtractURLs, hcall ProgState.init, Option.some.injEq,
            Prod.mk.injEq] at h
          exact h.2.symm
      intro u hu
      rw [hout, mem_sortStrings, ProgState.mem_init_extend] at hu
      obtain ⟨L, locs, hL, hH, hkl⟩ := hprov u hu
      exact ⟨L, locs, hlog _ hL, hH, hkl⟩
  · intro L content idx n w w1 e hd hi hlen hp u hu
    rcases parseSitemap_index c n L content idx hd hi hlen with
      hnone | ⟨ks, lg, hcall, _, hmem, _⟩
    · rw [hnone w] at hp
      cases hp
    · rw [hcall w] at hp
      simp only [Option.some.injEq, Prod.mk.injEq] at hp
      rw [← hp.1, ProgState.mem_extend] at hu
      rcases hu with hu | hu
      · exact Or.inl hu
      · exact Or.inr ((hmem u).mp hu)

/-- C8 at a root index with three children of which the second answers 404. -/
theorem ExtractURLs_provenance_witness :
    ExtractURLs partialCorpus 2 "http://x/sitemap.xml" ProgState.init =
      some (⟨⟨⟨["http://x/3", "http://x/1", "http://x/2"], by decide⟩⟩,
        [.processingIndex "http://x/sitemap.xml", .processingSitemap "http://x/a.xml",
         .nestedError "http://x/b.xml" (.non200 404), .processingSitemap "http://x/c.xml"]⟩,
        ["http://x/1", "http://x/2", "http://x/3"]) ∧
    (∀ u ∈ ["http://x/1", "http://x/2", "http://x/3"], ∃ L locs,
      LogEntry.processingSitemap L ∈
        [LogEntry.processingIndex "http://x/sitemap.xml",
         .processingSitemap "http://x/a.xml",
         .nestedError "http://x/b.xml" (.non200 404), .processingSitemap "http://x/c.xml"] ∧
      HandledAsURLSet partialCorpus L locs ∧ u ∈ locs) :=
  ⟨by decide,
   (ExtractURLs_provenance partialCorpus 2 "http://x/sitemap.xml"
    ⟨⟨⟨["http://x/3", "http://x/1", "http://x/2"], by decide⟩⟩,
      [.processingIndex "http://x/sitemap.xml", .processingSitemap "http://x/a.xml",
       .nestedError "http://x/b.xml" (.non200 404), .processingSitemap "http://x/c.xml"]⟩
    ["http://x/1", "http://x/2", "http://x/3"] (by decide)).1⟩

/-- The fetch of a 200 response: the body goes through `gzip.NewReader` exactly when the URL
ends in `.gz` or the `Content-Type` header is the string `application/x-gzip`. -/
theorem downloadSitemap_of_200 (c : Corpus) (url : String) (resp : Response)
    (hreq : c.NewRequest url = true) (hdo : c.Do url = some resp)
    (hst : resp.StatusCode = 200) :
    ((HasSuffix url ".gz" = true ∨ resp.contentType = "application/x-gzip") →
      downloadSitemap c url =
        match c.gzipNewReader resp.Body with
        | none => .error .gzipReader
        | some gzReader => ReadAll gzReader) ∧
    (¬ (HasSuffix url ".gz" = true ∨ resp.contentType = "application/x-gzip") →
      downloadSitemap c url = ReadAll resp.Body) := by
  constructor
  · intro h
    have h2 : (HasSuffix url ".gz" || decide (resp.contentType = "application/x-gzip")) = true := by
      simpa using h
    simp only [downloadSitemap, hreq, hdo, hst, h2]
    simp
  · intro h
    have h2 : (HasSuffix url ".gz" || decide (resp.contentType = "application/x-gzip")) = false := by
      simpa using h
    simp only [downloadSitemap, hreq, hdo, hst, h2]
    simp

/-- C7: a 200 response declared `application/gzip`, under a URL that does not end in `.gz`,
is not decompressed: `downloadSitemap` returns the compressed bytes and `ExtractURLs` ends
with a parse error and no URL, while the same bytes declared `application/x-gzip`, or served
under a URL that ends in `.gz`, are decompressed and give the URL. -/
theorem downloadSitemap_application_gzip :
    downloadSitemap gzipCorpus "http://x/sitemap" = .ok gzipBytes ∧
    ExtractURLs gzipCorpus 1 "http://x/sitemap" ProgState.init =
      some (⟨NewSitemapExtractor, [.extractError .parsingXML]⟩, []) ∧
    downloadSitemap gzipCorpus "http://x/sitemap-x" = .ok (bytesOf (urlsetXML ["http://x/1"])) ∧
    downloadSitemap gzipCorpus "http://x/sitemap.xml.gz" =
      .ok (bytesOf (urlsetXML ["http://x/1"])) ∧
    (ExtractURLs gzipCorpus 1 "http://x/sitemap.xml.gz" ProgState.init).map Prod.snd =
      some ["http://x/1"] := by
  refine ⟨by decide, by decide, by decide, by decide, by decide⟩

theorem exists_uniform_bound (P : String → Nat → Prop) (cs : List Sitemap)
    (h : ∀ s ∈ cs, ∃ N, ∀ n, N ≤ n → P s.Loc n) :
    ∃ N, ∀ s ∈ cs, ∀ n, N ≤ n → P s.Loc n := by
  induction cs with
  | nil => exact ⟨0, fun s hs => by cases hs⟩
  | cons t rest ih =>
    obtain ⟨N1, h1⟩ := h t (List.mem_cons_self _ _)
    obtain ⟨N2, h2⟩ := ih (fun s hs => h s (List.mem_cons_of_mem _ hs))
    refine ⟨max N1 N2, ?_⟩
    intro s hs n hn
    rcases List.mem_cons.mp hs with rfl | hs
    · exact h1 n (le_trans (le_max_left _ _) hn)
    · exact h2 s hs n (le_trans (le_max_right _ _) hn)

theorem parseSitemap_returns_of_acc (c : Corpus) (root : String)
    (hacc : Acc (fun C L => ListsChild c L C) root) :
    ∃ N, ∀ n, N ≤ n → ∀ w, (parseSitemap c n root w).isSome := by
  induction hacc with
  | intro L _ ih =>
    cases hd : downloadSitemap c L with
    | error err =>
      refine ⟨1, ?_⟩
      intro n hn w
      obtain ⟨m, rfl⟩ := Nat.exists_eq_succ_of_ne_zero (Nat.one_le_iff_ne_zero.mp hn)
      simp [parseSitemap, hd]
    | ok content =>
      cases hi : unmarshalSitemapIndex c content with
      | none =>
        refine ⟨1, ?_⟩
        intro n hn w
        obtain ⟨m, rfl⟩ := Nat.exists_eq_succ_of_ne_zero (Nat.one_le_iff_ne_zero.mp hn)
        simp [parseSitemap, hd, hi]
      | some idx =>
        by_cases hlen : 0 < idx.Sitemaps.length
        · obtain ⟨N, hN⟩ := exists_uniform_bound
            (fun loc n => ∀ w, (parseSitemap c n loc w).isSome) idx.Sitemaps
            (fun s hs => ih s.Loc ⟨content, idx, hd, hi, hlen, List.mem_map_of_mem _ hs⟩)
          refine ⟨N + 1, ?_⟩
          intro n hn w
          obtain ⟨m, rfl⟩ := Nat.exists_eq_succ_of_ne_zero
            (Nat.one_le_iff_ne_zero.mp (le_trans (Nat.le_add_left 1 N) hn))
          have hm : N ≤ m := Nat.le_of_succ_le_succ hn
          have := parseSitemap_index_isSome c m L content idx hd hi hlen
            (fun s hs => hN s hs m hm ProgState.init) w
          exact Option.isSome_iff_ne_none.mpr this
        · refine ⟨1, ?_⟩
          intro n hn w
          obtain ⟨m, rfl⟩ := Nat.exists_eq_succ_of_ne_zero (Nat.one_le_iff_ne_zero.mp hn)
          have hlen2 : ¬ idx.Sitemaps.length > 0 := hlen
          simp [parseSitemap, hd, hi, hlen2]

/-- C9: when the relation "the index document at `L` lists the child `C`" is well-founded
below the root, there is a depth of recursion within which `parseSitemap(root)` returns and
`ExtractURLs(root)` returns a list, from every state and whatever fetches or parses fail;
a larger budget changes nothing. -/
theorem ExtractURLs_terminates (c : Corpus) (root : String)
    (hacc : Acc (fun C L => ListsChild c L C) root) :
    ∃ N, ∀ w, ∃ w1 err w2 out, ∀ n, N ≤ n →
      parseSitemap c n root w = some (w1, err) ∧ ExtractURLs c n root w = some (w2, out) := by
  obtain ⟨N, hN⟩ := parseSitemap_returns_of_acc c root hacc
  refine ⟨N, ?_⟩
  intro w
  cases hp : parseSitemap c N root w with
  | none =>
    have := hN N (le_refl N) w
    rw [hp] at this
    cases this
  | some r =>
    obtain ⟨w1, err⟩ := r
    cases err with
    | none =>
      refine ⟨w1, none, w1, sortStrings w1.se.urls.keys, ?_⟩
      intro n hn
      have hpn := parseSitemap_mono c N n hn root w _ hp
      exact ⟨hpn, by simp only [ExtractURLs, hpn]⟩
    | some e =>
      refine ⟨w1, some e, w1.printf (.extractError e), sortStrings w1.se.urls.keys, ?_⟩
      intro n hn
      have hpn := parseSitemap_mono c N n hn root w _ hp
      exact ⟨hpn, by simp only [ExtractURLs, hpn]⟩

theorem acc_of_not_index (c : Corpus) (L : String)
    (h : ∀ content idx, downloadSitemap c L = .ok content →
      unmarshalSitemapIndex c content = some idx → idx.Sitemaps.length = 0) :
    Acc (fun C L => ListsChild c L C) L := by
  refine Acc.intro _ (fun C hC => ?_)
  obtain ⟨content, idx, hd, hi, hlen, _⟩ := hC
  have := h content idx hd hi
  omega

theorem exampleCorpus_acc :
    Acc (fun C L => ListsChild exampleCorpus L C) "http://x/sitemap.xml" := by
  refine Acc.intro _ (fun C hC => ?_)
  obtain ⟨content, idx, hd, hi, _, hC⟩ := hC
  have h1 : downloadSitemap exampleCorpus "http://x/sitemap.xml" =
      .ok (bytesOf (sitemapindexXML ["http://x/a.xml", "http://x/b.xml"])) := by decide
  rw [h1] at hd
  cases hd
  have h2 : unmarshalSitemapIndex exampleCorpus
      (bytesOf (sitemapindexXML ["http://x/a.xml", "http://x/b.xml"])) =
      some ⟨[⟨"http://x/a.xml"⟩, ⟨"http://x/b.xml"⟩]⟩ := by decide
  rw [h2] at hi
  cases hi
  simp only [List.map_cons, List.map_nil, List.mem_cons, List.mem_singleton,
    List.not_mem_nil, or_false] at hC
  rcases hC with rfl | rfl
  · apply acc_of_not_index
    intro content idx hd hi
    have h3 : downloadSitemap exampleCorpus "http://x/a.xml" =
        .ok (bytesOf (urlsetXML ["http://x/1", "http://x/2"])) := by decide
    rw [h3] at hd
    cases hd
    have h4 : unmarshalSitemapIndex exampleCorpus
        (bytesOf (urlsetXML ["http://x/1", "http://x/2"])) = none := by decide
    rw [h4] at hi
    cases hi
  · apply acc_of_not_index
    intro content idx hd hi
    have h3 : downloadSitemap exampleCorpus "http://x/b.xml" =
        .ok (bytesOf (urlsetXML ["http://x/2", "http://x/3"])) := by decide
    rw [h3] at hd
    cases hd
    have h4 : unmarshalSitemapIndex exampleCorpus
        (bytesOf (urlsetXML ["http://x/2", "http://x/3"])) = none := by decide
    rw [h4] at hi
    cases hi

/-- C9 at the end-to-end example, whose index lists two URL sets. -/
theorem ExtractURLs_terminates_witness :
    Acc (fun C L => ListsChild exampleCorpus L C) "http://x/sitemap.xml" ∧
    ∃ N, ∀ w, ∃ w1 err w2 out, ∀ n, N ≤ n →
      parseSitemap exampleCorpus n "http://x/sitemap.xml" w = some (w1, err) ∧
      ExtractURLs exampleCorpus n "http://x/sitemap.xml" w = some (w2, out) :=
  ⟨exampleCorpus_acc, ExtractURLs_terminates exampleCorpus "http://x/sitemap.xml"
    exampleCorpus_acc⟩

/-- C10: when the location `A` fetches to a sitemap index that lists `B` and `B` fetches to
a sitemap index that lists `A`, no budget for the depth of the recursion is enough:
`parseSitemap(A)` returns within none, from whatever state, and neither does
`ExtractURLs(A)`. -/
theorem parseSitemap_cycle_diverges (c : Corpus) (A B : String)
    (hAB : ListsChild c A B) (hBA : ListsChild c B A) (n : Nat) (w : ProgState) :
    parseSitemap c n A w = none ∧ ExtractURLs c n A w = none := by
  have step : ∀ (X Y : String) (m : Nat), ListsChild c X Y →
      (∀ v, parseSitemap c m Y v = none) → ∀ v, parseSitemap c (m + 1) X v = none := by
    intro X Y m hXY hY v
    obtain ⟨content, idx, hd, hi, hlen, hmem⟩ := hXY
    obtain ⟨s, hs, hsY⟩ := List.mem_map.mp hmem
    have hloop := rangeSitemaps_none_of_mem (parseSitemap c m) idx.Sitemaps s hs
      (by rw [hsY]; exact hY) (v.printf (.processingIndex X))
    simp [parseSitemap, hd, hi, hlen, hloop]
  have key : ∀ m, (∀ v, parseSitemap c m A v = none) ∧ (∀ v, parseSitemap c m B v = none) := by
    intro m
    induction m with
    | zero => exact ⟨fun _ => rfl, fun _ => rfl⟩
    | succ m ih => exact ⟨step A B m hAB ih.2, step B A m hBA ih.1⟩
  have hA := (key n).1 w
  exact ⟨hA, by simp only [ExtractURLs, hA]⟩

/-- C10 at two indexes that list each other. -/
theorem parseSitemap_cycle_diverges_witness :
    ListsChild cycleCorpus "http://x/a.xml" "http://x/b.xml" ∧
    ListsChild cycleCorpus "http://x/b.xml" "http://x/a.xml" ∧
    ∀ n w, parseSitemap cycleCorpus n "http://x/a.xml" w = none ∧
      ExtractURLs cycleCorpus n "http://x/a.xml" w = none :=
  have hAB : ListsChild cycleCorpus "http://x/a.xml" "http://x/b.xml" :=
    ⟨bytesOf (sitemapindexXML ["http://x/b.xml"]), ⟨[⟨"http://x/b.xml"⟩]⟩,
      by decide, by decide, by decide, by decide⟩
  have hBA : ListsChild cycleCorpus "http://x/b.xml" "http://x/a.xml" :=
    ⟨bytesOf (sitemapindexXML ["http://x/a.xml"]), ⟨[⟨"http://x/a.xml"⟩]⟩,
      by decide, by decide, by decide, by decide⟩
  ⟨hAB, hBA, fun n w =>
    parseSitemap_cycle_diverges cycleCorpus "http://x/a.xml" "http://x/b.xml" hAB hBA n w⟩

end SitemapExtract
